import Mathlib

/-!
Verification of the text chunking engine (`src/text_chunker.py`).

The Python module is shallowly embedded here.  The tokenizer (tiktoken in the
source) is abstracted as a `Codec` capability, exactly as the specification
treats it; `charCodec` (one token per character) is the concrete codec used
for all counterexamples and witnesses.  Python strings are Lean `String`s,
Python lists of chunk dictionaries are `List Chunk`, Python's truthiness test
`if current_chunk:` is `buf ≠ ""`, and `str.strip()` is `pyStrip` (Python's
whitespace set restricted to its ASCII members, which covers every input
used below).  The two `re.split` calls are embedded as the character-level
state machines `splitSecAux` (pattern `\n\n+`, greedy) and `splitSentAux`
(pattern `(?<=[.!?])\s+`, greedy), faithful to the regex semantics.
`_split_by_tokens` advances its window start by `max_tokens - overlap`;
the source loop does not terminate when `overlap ≥ max_tokens`, so the
embedding recurses only while at least one token is consumed per step
(all theorems about it assume `overlap < max_tokens`, where the embedding
and the source agree).
-/

/-- TokenCodec capability (spec §6): `encode : text → token sequence` and
`decode : token sequence → text`.  `tiktoken` instantiates it in the source. -/
structure Codec (τ : Type) where
  encode : String → List τ
  decode : List τ → String

/-- Token count of a text under a codec: `len(self.encoding.encode(text))`. -/
def countC {τ : Type} (c : Codec τ) (s : String) : Nat :=
  (c.encode s).length

/-- The one-token-per-character codec, the concrete `Codec` instance used for
counterexamples and witnesses. -/
def charCodec : Codec Char :=
  ⟨fun s => s.data, fun l => String.mk l⟩

/-- One chunk dictionary: `{'text': ..., 'tokens': ..., 'chunk_id': ...}`. -/
structure Chunk where
  text : String
  tokens : Nat
  chunk_id : Nat
deriving DecidableEq

/-- ASCII members of Python's whitespace class (space, tab, newline, carriage
return, vertical tab, form feed), used by `str.strip()` and regex `\s`. -/
def isPySpace (c : Char) : Bool :=
  c == ' ' || c == '\t' || c == '\n' || c == '\r' || c == Char.ofNat 11 || c == Char.ofNat 12

/-- Python's `str.strip()`: remove leading and trailing whitespace. -/
def pyStrip (s : String) : String :=
  String.mk (((s.data.dropWhile isPySpace).reverse.dropWhile isPySpace).reverse)

/-- Character-level state machine for `re.split(r'\n\n+', text)`.
`skip = true` means we are inside the newline run that triggered the last
split and are consuming it greedily. -/
def splitSecAux : List Char → List Char → Bool → List (List Char)
  | [], acc, _ => [acc.reverse]
  | '\n' :: '\n' :: rest, acc, false => acc.reverse :: splitSecAux rest [] true
  | c :: rest, acc, true =>
      if c = '\n' then splitSecAux rest acc true else splitSecAux rest [c] false
  | c :: rest, acc, false => splitSecAux rest (c :: acc) false

/-- `TextChunker._split_by_sections`: split on blank-line boundaries, strip
each piece, drop the empty ones. -/
def splitSections (text : String) : List String :=
  ((splitSecAux text.data [] false).map (fun l => pyStrip (String.mk l))).filter
    (fun s => s ≠ "")

/-- Lookbehind test of `re.split(r'(?<=[.!?])\s+', text)`: the previously
consumed character (head of the reversed accumulator) is sentence-terminal. -/
def prevIsTerm (acc : List Char) : Bool :=
  match acc with
  | p :: _ => p == '.' || p == '!' || p == '?'
  | [] => false

/-- Character-level state machine for `re.split(r'(?<=[.!?])\s+', text)`.
`skip = true` means we are greedily consuming the whitespace run that
followed a sentence-terminal character. -/
def splitSentAux : List Char → List Char → Bool → List (List Char)
  | [], acc, _ => [acc.reverse]
  | c :: rest, acc, true =>
      if isPySpace c then splitSentAux rest acc true
      else splitSentAux rest [c] false
  | c :: rest, acc, false =>
      if isPySpace c && prevIsTerm acc then acc.reverse :: splitSentAux rest [] true
      else splitSentAux rest (c :: acc) false

/-- `TextChunker._split_by_sentences`: split after terminal punctuation
followed by whitespace, strip, drop empties. -/
def splitSentences (text : String) : List String :=
  ((splitSentAux text.data [] false).map (fun l => pyStrip (String.mk l))).filter
    (fun s => s ≠ "")

/-- `TextChunker._get_overlap_text`: last `ov` tokens of `text`, decoded;
the whole text when it has at most `ov` tokens; `""` when the text is empty
or `ov = 0` (Python: `overlap_tokens <= 0`). -/
def getOverlapText {τ : Type} (c : Codec τ) (text : String) (ov : Nat) : String :=
  if text = "" ∨ ov = 0 then ""
  else
    let tokens := c.encode text
    if tokens.length ≤ ov then text
    else c.decode (tokens.drop (tokens.length - ov))

/-- Loop of `TextChunker._split_by_tokens` over the remaining token list
(`l = tokens[start:]`).  Each iteration takes the window `tokens[start:start +
max_tokens]` and advances `start` by `step = max_tokens - overlap`; dropping
`step - 1` of `rest` is exactly dropping `step` of `t :: rest` when
`step ≥ 1`, the terminating domain of the source loop. -/
def splitTokAux {τ : Type} (c : Codec τ) (maxT step : Nat) (l : List τ) (cid : Nat) :
    List Chunk :=
  match l with
  | [] => []
  | t :: rest =>
    let window := (t :: rest).take maxT
    ⟨c.decode window, window.length, cid⟩ ::
      splitTokAux c maxT step (rest.drop (step - 1)) (cid + 1)
termination_by l.length
decreasing_by simp [List.length_drop]; omega

/-- `TextChunker._split_by_tokens`: windows of `max_tokens` tokens whose
starts are `max_tokens - overlap` apart, each decoded back to text, with
local chunk ids starting at 0. -/
def splitByTokens {τ : Type} (c : Codec τ) (maxT ov : Nat) (text : String) : List Chunk :=
  splitTokAux c maxT (maxT - ov) (c.encode text) 0

/-- Loop body of `TextChunker._split_large_section` over the sentence list.
State: emitted chunks, accumulator text, accumulator token count. -/
def largeLoop {τ : Type} (c : Codec τ) (maxT ov : Nat) :
    List String → List Chunk → String → Nat → List Chunk
  | [], chunks, buf, bt =>
      if pyStrip buf ≠ "" then chunks ++ [⟨pyStrip buf, bt, chunks.length⟩] else chunks
  | s :: rest, chunks, buf, bt =>
      let t := countC c s
      if t > maxT then
        let chunks1 := if buf ≠ "" then chunks ++ [⟨pyStrip buf, bt, chunks.length⟩] else chunks
        largeLoop c maxT ov rest (chunks1 ++ splitByTokens c maxT ov s) "" 0
      else if bt + t > maxT then
        let chunks1 := chunks ++ [⟨pyStrip buf, bt, chunks.length⟩]
        let buf1 := getOverlapText c buf ov ++ " " ++ s
        largeLoop c maxT ov rest chunks1 buf1 (countC c buf1)
      else
        let buf1 := if buf ≠ "" then buf ++ " " ++ s else s
        largeLoop c maxT ov rest chunks buf1 (bt + t)

/-- `TextChunker._split_large_section`: sentence-split the section and run
the sentence-level accumulator loop. -/
def splitLargeSection {τ : Type} (c : Codec τ) (maxT ov : Nat) (text : String) : List Chunk :=
  largeLoop c maxT ov (splitSentences text) [] "" 0

/-- Working state of `TextChunker.chunk_text`: emitted chunks, the current
accumulator text (`current_chunk`) and its running count (`current_tokens`). -/
structure AsmState where
  chunks : List Chunk
  buf : String
  bt : Nat
deriving DecidableEq

/-- The guarded flush `if current_chunk: chunks.append(...); reset`:
the appended chunk's text is the stripped buffer, its `tokens` is the running
count, its id the current length of the chunk list. -/
def flushIf (st : AsmState) : AsmState :=
  if st.buf ≠ "" then
    ⟨st.chunks ++ [⟨pyStrip st.buf, st.bt, st.chunks.length⟩], "", 0⟩
  else st

/-- One iteration of the `for section in sections` loop of
`TextChunker.chunk_text` (the three branches of lines 54-89). -/
def assembleStep {τ : Type} (c : Codec τ) (maxT ov : Nat) (st : AsmState) (s : String) :
    AsmState :=
  let t := countC c s
  if t > maxT then
    let st1 := flushIf st
    ⟨st1.chunks ++ splitLargeSection c maxT ov s, "", 0⟩
  else if st.bt + t > maxT then
    let st1 := flushIf st
    let buf1 := getOverlapText c st.buf ov ++ "\n\n" ++ s
    ⟨st1.chunks, buf1, countC c buf1⟩
  else
    let buf1 := if st.buf ≠ "" then st.buf ++ "\n\n" ++ s else s
    ⟨st.chunks, buf1, st.bt + t⟩

/-- `TextChunker.chunk_text`: fold the assembler over the sections, then
flush the final accumulator when its stripped text is non-empty. -/
def chunkText {τ : Type} (c : Codec τ) (maxT ov : Nat) (text : String) : List Chunk :=
  let fin := (splitSections text).foldl (assembleStep c maxT ov) ⟨[], "", 0⟩
  if pyStrip fin.buf ≠ "" then
    fin.chunks ++ [⟨pyStrip fin.buf, fin.bt, fin.chunks.length⟩]
  else fin.chunks

/-- Result of `TextChunker.get_statistics`.  `avg_tokens` is modelled as an
exact rational (Python rounds a float to two decimals; the claims checked
here do not depend on float representation). -/
structure ChunkStats where
  total_chunks : Nat
  total_tokens : Nat
  avg_tokens : ℚ
  min_tokens : Nat
  max_tokens : Nat
deriving DecidableEq

/-- Round-half-to-even to an integer, the rounding Python's `round` uses. -/
def roundHalfEven (q : ℚ) : ℤ :=
  let f := Int.floor q
  let r := q - f
  if r < 1 / 2 then f
  else if 1 / 2 < r then f + 1
  else if Even f then f else f + 1

/-- Python's `round(x, 2)` on the exact rational value. -/
def round2 (q : ℚ) : ℚ :=
  (roundHalfEven (q * 100) : ℚ) / 100

/-- `TextChunker.get_statistics`: the zero record for an empty list, else
count, total, rounded average, minimum and maximum of the `tokens` fields. -/
def getStatistics (chunks : List Chunk) : ChunkStats :=
  match chunks with
  | [] => ⟨0, 0, 0, 0, 0⟩
  | c0 :: rest =>
    let tc := (c0 :: rest).map Chunk.tokens
    ⟨(c0 :: rest).length, tc.sum,
     round2 ((tc.sum : ℚ) / ((c0 :: rest).length : ℚ)),
     rest.foldl (fun a ch => Nat.min a ch.tokens) c0.tokens,
     rest.foldl (fun a ch => Nat.max a ch.tokens) c0.tokens⟩

/-- A constructed `TextChunker`: the configuration the constructor stores.
Fields are integers, as in Python (the encoding choice carries no
configuration state relevant to the claims and is omitted). -/
structure TextChunkerInst where
  max_tokens : Int
  overlap : Int
deriving DecidableEq

/-- Modelled from the spec: the spec's `ConfigurationError` taxonomy
(§7); the source module defines no such error. -/
inductive ConfigurationError where
  | overlapGeMax
  | maxNonpositive
deriving DecidableEq

/-- `TextChunker.__init__`: stores the configuration unconditionally.  The
source contains no validation and no raise (its only `try/except` falls back
to a default encoding and cannot fail), so construction always succeeds. -/
def textChunkerInit (max_tokens overlap : Int) : TextChunkerInst :=
  ⟨max_tokens, overlap⟩

/-- Modelled from the spec: a validating constructor following §7
("raised at construction when `overlapTokens ≥ maxTokens` or
`maxTokens ≤ 0`"), for comparison with the source constructor. -/
def chunkerInitSpec (max_tokens overlap : Int) : Except ConfigurationError TextChunkerInst :=
  if max_tokens ≤ 0 then Except.error ConfigurationError.maxNonpositive
  else if overlap ≥ max_tokens then Except.error ConfigurationError.overlapGeMax
  else Except.ok ⟨max_tokens, overlap⟩

/-- Chunk ids of a list are exactly `0..n-1` in order (spec's index
density). -/
def ChunkIdsDense (l : List Chunk) : Prop :=
  l.map Chunk.chunk_id = List.range l.length

/-! ## Helper lemmas -/

/-- Encoding under the character codec is the underlying character list. -/
theorem charCodec_encode (x : String) : charCodec.encode x = x.data := rfl

/-- Decoding under the character codec rebuilds the string. -/
theorem charCodec_decode (w : List Char) : charCodec.decode w = String.mk w := rfl

/-- Round trip of the character codec on token lists. -/
theorem charCodec_data_decode (w : List Char) : (charCodec.decode w).data = w := rfl

/-- Closed form of the `_split_by_tokens` loop: with step `step ≥ 1` and a
remaining token list `l`, the loop yields `ceil(|l| / step)` windows, the
`j`-th being the decoded slice `l[j*step : j*step + maxT]`. -/
theorem splitTokAux_char {τ : Type} (c : Codec τ) (maxT step : Nat) (hs : 1 ≤ step) :
    ∀ (N : Nat) (l : List τ) (cid : Nat), l.length ≤ N →
    splitTokAux c maxT step l cid =
      (List.range ((l.length + step - 1) / step)).map (fun j =>
        ⟨c.decode ((l.drop (j * step)).take maxT),
         min maxT (l.length - j * step), cid + j⟩) := by
  intro N
  induction N with
  | zero =>
    intro l cid hl
    have h0 : l = [] := List.eq_nil_of_length_eq_zero (by omega)
    subst h0
    simp [splitTokAux, Nat.div_eq_of_lt (show step - 1 < step by omega)]
  | succ N ih =>
    intro l cid hl
    match l with
    | [] => simp [splitTokAux, Nat.div_eq_of_lt (show step - 1 < step by omega)]
    | t :: rest =>
      have hdrop : rest.drop (step - 1) = (t :: rest).drop step := by
        obtain ⟨k, rfl⟩ : ∃ k, step = k + 1 := ⟨step - 1, by omega⟩
        simp
      have hih := ih ((t :: rest).drop step) (cid + 1)
        (by rw [List.length_drop]; simp at hl ⊢; omega)
      have hn : ((t :: rest).length + step - 1) / step = rest.length / step + 1 := by
        rw [List.length_cons,
          show rest.length + 1 + step - 1 = rest.length + step by omega,
          Nat.add_div_right _ (by omega)]
      have hm : (((t :: rest).drop step).length + step - 1) / step = rest.length / step := by
        rw [List.length_drop, List.length_cons]
        rcases le_or_lt step (rest.length + 1) with hc | hc
        · rw [show rest.length + 1 - step + step - 1 = rest.length by omega]
        · rw [show rest.length + 1 - step = 0 by omega, Nat.zero_add,
            Nat.div_eq_of_lt (by omega), Nat.div_eq_of_lt (by omega)]
      simp only [splitTokAux]
      rw [hdrop, hih, hm, hn, List.range_succ_eq_map, List.map_cons, List.map_map]
      congr 1
      · simp [List.length_take]
      · apply List.map_congr_left
        intro j hj
        simp only [Function.comp_apply, Nat.succ_eq_add_one, Chunk.mk.injEq,
          List.drop_drop, List.length_drop, List.length_cons]
        refine ⟨by rw [show step + j * step = (j + 1) * step by ring], ?_, by omega⟩
        rw [show (j + 1) * step = step + j * step by ring]
        congr 1
        omega

/-- Closed form of `_split_by_tokens` itself, on the terminating domain
`overlap < max_tokens`. -/
theorem splitByTokens_char {τ : Type} (c : Codec τ) (maxT ov : Nat) (text : String)
    (h : ov < maxT) :
    splitByTokens c maxT ov text =
      (List.range (((c.encode text).length + (maxT - ov) - 1) / (maxT - ov))).map (fun j =>
        ⟨c.decode (((c.encode text).drop (j * (maxT - ov))).take maxT),
         min maxT ((c.encode text).length - j * (maxT - ov)), j⟩) := by
  unfold splitByTokens
  rw [splitTokAux_char c maxT (maxT - ov) (by omega) (c.encode text).length (c.encode text) 0
    (Nat.le_refl _)]
  simp

/-- Concrete run of `_split_by_tokens`: five tokens, budget 4, overlap 2. -/
theorem splitByTokens_eval1 :
    splitByTokens charCodec 4 2 "abcde" = [⟨"abcd", 4, 0⟩, ⟨"cde", 3, 1⟩, ⟨"e", 1, 2⟩] := by
  rw [splitByTokens_char charCodec 4 2 "abcde" (by omega)]
  decide

/-- Concrete run of `_split_by_tokens`: four tokens, budget 4, overlap 3. -/
theorem splitByTokens_eval2 :
    splitByTokens charCodec 4 3 "abcd" =
      [⟨"abcd", 4, 0⟩, ⟨"bcd", 3, 1⟩, ⟨"cd", 2, 2⟩, ⟨"d", 1, 3⟩] := by
  rw [splitByTokens_char charCodec 4 3 "abcd" (by omega)]
  decide

/-- Appending a chunk whose id is the current length preserves index
density. -/
theorem dense_append (l : List Chunk) (t : String) (n : Nat)
    (h : ChunkIdsDense l) : ChunkIdsDense (l ++ [⟨t, n, l.length⟩]) := by
  unfold ChunkIdsDense at *
  rw [List.map_append, h, List.length_append]
  simp [List.range_succ]

/-- The guarded flush preserves index density. -/
theorem flushIf_dense (st : AsmState) (h : ChunkIdsDense st.chunks) :
    ChunkIdsDense (flushIf st).chunks := by
  unfold flushIf
  split
  · exact dense_append st.chunks (pyStrip st.buf) st.bt h
  · exact h

/-- When the incoming section fits the budget, one assembler step preserves
index density (the fallback extend is the only step that can break it). -/
theorem assembleStep_dense {τ : Type} (c : Codec τ) (maxT ov : Nat) (st : AsmState)
    (s : String) (hs : countC c s ≤ maxT) (h : ChunkIdsDense st.chunks) :
    ChunkIdsDense (assembleStep c maxT ov st s).chunks := by
  simp only [assembleStep]
  rw [if_neg (by omega)]
  split
  · exact flushIf_dense st h
  · exact h

/-- Folding the assembler over sections that all fit the budget preserves
index density. -/
theorem chunkLoop_dense {τ : Type} (c : Codec τ) (maxT ov : Nat) :
    ∀ (sections : List String) (st : AsmState),
    (∀ s ∈ sections, countC c s ≤ maxT) → ChunkIdsDense st.chunks →
    ChunkIdsDense (sections.foldl (assembleStep c maxT ov) st).chunks := by
  intro sections
  induction sections with
  | nil => intro st _ h; exact h
  | cons s rest ih =>
    intro st hall h
    rw [List.foldl_cons]
    exact ih _ (fun x hx => hall x (List.mem_cons_of_mem _ hx))
      (assembleStep_dense c maxT ov st s (hall s (List.mem_cons_self _ _)) h)

/-! ## Claim theorems -/

/-- C1: the budget invariant `tokenCount ≤ maxTokens` fails on the code.
With budget 4 and overlap 2 (one token per character), two four-token
sections make `chunk_text` flush the first chunk and seed the next
accumulator with overlap text plus separator plus section; that accumulator
is flushed at end of input as a chunk whose `tokens` field is 8 and whose
text has 8 tokens, both exceeding the budget of 4.  This contradicts the
constructor's own documentation of `max_tokens` as "Maximum tokens per
chunk". -/
theorem c1_budget_violation_eval :
    chunkText charCodec 4 2 "aaaa\n\nbbbb" = [⟨"aaaa", 4, 0⟩, ⟨"aa\n\nbbbb", 8, 1⟩] ∧
    ∃ ch ∈ chunkText charCodec 4 2 "aaaa\n\nbbbb",
      4 < ch.tokens ∧ 4 < countC charCodec ch.text := by
  refine ⟨by decide, ⟨⟨"aa\n\nbbbb", 8, 1⟩, by decide, by decide, by decide⟩⟩

/-- C2 counterexample: constructing with `max_tokens = 0` and
`overlap = 5` (both spec-invalid) succeeds and returns a usable instance;
the spec-modelled validating constructor rejects the same configuration, so
the claim that `__init__` raises a `ConfigurationError` is false of the
code. -/
theorem c2_no_validation_counterexample :
    textChunkerInit 0 5 = ⟨0, 5⟩ ∧
    chunkerInitSpec 0 5 = Except.error ConfigurationError.maxNonpositive :=
  ⟨rfl, rfl⟩

/-- C2 amended: `TextChunker.__init__` performs no configuration
validation and never raises; on well-formed configurations it agrees with
the spec-modelled validating constructor. -/
theorem c2_init_validation_amended (m o : Int) (h1 : 0 < m) (h2 : o < m) :
    chunkerInitSpec m o = Except.ok (textChunkerInit m o) := by
  unfold chunkerInitSpec textChunkerInit
  rw [if_neg (by omega), if_neg (by omega)]

/-- C2 witness: the amended statement holds at the source defaults
`max_tokens = 800`, `overlap = 100`. -/
theorem c2_init_validation_witness : ((0 : Int) < 800 ∧ (100 : Int) < 800) ∧
    chunkerInitSpec 800 100 = Except.ok (textChunkerInit 800 100) :=
  ⟨⟨by decide, by decide⟩, c2_init_validation_amended 800 100 (by decide) (by decide)⟩

/-- C3 counterexample: two one-token sections under a large budget are
joined with the `"\n\n"` separator, but `current_tokens` is incremented by
the per-section counts (line 89), so the emitted chunk stores `tokens = 2`
while its text `"a\n\nb"` has 4 tokens under the codec. -/
theorem c3_tokens_field_counterexample :
    chunkText charCodec 10 0 "a\n\nb" = [⟨"a\n\nb", 2, 0⟩] ∧
    countC charCodec "a\n\nb" = 4 ∧ (2 : Nat) ≠ 4 :=
  ⟨by decide, by decide, by decide⟩

/-- C3 amended: `tokens = TokenCodec.count(text)` does hold for every chunk
emitted by the `_split_by_tokens` fallback (window length equals the count
of the decoded window); the accumulator path of `chunk_text` instead stores
a per-section sum or a pre-strip recount, which the counterexample shows
can differ from the count of the stored text. -/
theorem c3_tokens_field_amended (maxT ov : Nat) (text : String) (ch : Chunk)
    (h1 : ov < maxT) (h2 : ch ∈ splitByTokens charCodec maxT ov text) :
    ch.tokens = countC charCodec ch.text := by
  rw [splitByTokens_char charCodec maxT ov text h1] at h2
  simp only [List.mem_map, List.mem_range] at h2
  obtain ⟨j, hj, rfl⟩ := h2
  show min maxT _ = countC charCodec (charCodec.decode _)
  have henc : ∀ w : List Char, charCodec.encode (charCodec.decode w) = w := fun w => rfl
  rw [countC, henc, List.length_take, List.length_drop]

/-- C3 witness: the first fallback window of a concrete run satisfies the
amended equality. -/
theorem c3_tokens_field_witness :
    ((2 : Nat) < 4 ∧ (⟨"abcd", 4, 0⟩ : Chunk) ∈ splitByTokens charCodec 4 2 "abcde") ∧
    (⟨"abcd", 4, 0⟩ : Chunk).tokens = countC charCodec (⟨"abcd", 4, 0⟩ : Chunk).text := by
  have hm : (⟨"abcd", 4, 0⟩ : Chunk) ∈ splitByTokens charCodec 4 2 "abcde" := by
    rw [splitByTokens_eval1]; decide
  exact ⟨⟨by decide, hm⟩, c3_tokens_field_amended 4 2 "abcde" ⟨"abcd", 4, 0⟩ (by decide) hm⟩

/-- C4 counterexample: a two-token section followed by an oversized
section makes `chunk_text` flush chunk id 0 and then extend the list with
`_split_large_section`'s output, whose local ids restart at 0: the emitted
id sequence is `[0, 0]`, not the dense `[0, 1] = range 2`. -/
theorem c4_index_density_counterexample :
    (chunkText charCodec 4 0 "ab\n\nu. v.").map Chunk.chunk_id = [0, 0] ∧
    (chunkText charCodec 4 0 "ab\n\nu. v.").length = 2 ∧
    ([0, 0] : List Nat) ≠ List.range 2 :=
  ⟨by decide, by decide, by decide⟩

/-- C4 amended: when every section fits the budget (so no fallback extend
occurs), the chunk ids emitted by `chunk_text` are exactly `0..n-1` in
emission order; fallback-extended chunks restart their ids at 0, which the
counterexample shows breaks density. -/
theorem c4_index_density_amended {τ : Type} (c : Codec τ) (maxT ov : Nat) (text : String)
    (h : ∀ s ∈ splitSections text, countC c s ≤ maxT) :
    (chunkText c maxT ov text).map Chunk.chunk_id =
      List.range (chunkText c maxT ov text).length := by
  have hd : ChunkIdsDense
      ((splitSections text).foldl (assembleStep c maxT ov) ⟨[], "", 0⟩).chunks :=
    chunkLoop_dense c maxT ov (splitSections text) ⟨[], "", 0⟩ h rfl
  show ChunkIdsDense (chunkText c maxT ov text)
  simp only [chunkText]
  split
  · exact dense_append _ _ _ hd
  · exact hd

/-- C4 witness: a concrete two-section input whose sections fit the budget
has dense ids. -/
theorem c4_index_density_witness :
    (∀ s ∈ splitSections "ab\n\ncd", countC charCodec s ≤ 4) ∧
    (chunkText charCodec 4 0 "ab\n\ncd").map Chunk.chunk_id =
      List.range (chunkText charCodec 4 0 "ab\n\ncd").length :=
  ⟨by decide, c4_index_density_amended charCodec 4 0 "ab\n\ncd" (by decide)⟩

/-- C5: with `overlap < max_tokens`, `_split_by_tokens` always returns (the
embedding is total on this domain, where each iteration advances the start
by `max_tokens - overlap ≥ 1`), produces exactly
`ceil(L / (max_tokens - overlap))` windows for an `L`-token input, and
every window has at most `max_tokens` tokens. -/
theorem c5_splitByTokens_terminates_count {τ : Type} (c : Codec τ) (maxT ov : Nat)
    (text : String) (h : ov < maxT) :
    (splitByTokens c maxT ov text).length =
      ((c.encode text).length + (maxT - ov) - 1) / (maxT - ov) ∧
    ∀ ch ∈ splitByTokens c maxT ov text, ch.tokens ≤ maxT := by
  rw [splitByTokens_char c maxT ov text h]
  constructor
  · simp
  · intro ch hch
    simp only [List.mem_map, List.mem_range] at hch
    obtain ⟨j, hj, rfl⟩ := hch
    exact Nat.min_le_left _ _

/-- C5 witness: the count formula and bound at budget 4, overlap 2, on a
five-token input (3 windows). -/
theorem c5_splitByTokens_terminates_count_witness : (2 : Nat) < 4 ∧
    ((splitByTokens charCodec 4 2 "abcde").length =
      ((charCodec.encode "abcde").length + (4 - 2) - 1) / (4 - 2) ∧
     ∀ ch ∈ splitByTokens charCodec 4 2 "abcde", ch.tokens ≤ 4) :=
  ⟨by decide, c5_splitByTokens_terminates_count charCodec 4 2 "abcde" (by decide)⟩

/-- C6 counterexample: on a 5-token input with budget 4 and overlap 2 the
windows have sizes `[4, 3, 1]`: the middle window is neither the last nor
of size `max_tokens = 4`, refuting "every window except possibly the last
contains exactly maxTokens tokens" (its successor also shares only 1 token
with it, not `overlapTokens = 2`). -/
theorem c6_window_sizes_counterexample :
    (splitByTokens charCodec 4 2 "abcde").map Chunk.tokens = [4, 3, 1] ∧
    (splitByTokens charCodec 4 2 "abcde").length = 3 ∧ (3 : Nat) ≠ 4 := by
  refine ⟨?_, ?_, by decide⟩ <;> rw [splitByTokens_eval1] <;> decide

/-- C6 amended: for `overlap < max_tokens`, window `j` starts at
`j * (max_tokens - overlap)` (so consecutive starts differ by exactly the
step), contains `min(max_tokens, L - start)` tokens — exactly `max_tokens`
for every window whose slice is not cut off by the end of the token list,
though more than one trailing window may be shorter — and its text is the
codec decoding of its token slice. -/
theorem c6_window_structure_amended {τ : Type} (c : Codec τ) (maxT ov : Nat) (text : String)
    (h : ov < maxT) :
    splitByTokens c maxT ov text =
      (List.range (((c.encode text).length + (maxT - ov) - 1) / (maxT - ov))).map (fun j =>
        ⟨c.decode (((c.encode text).drop (j * (maxT - ov))).take maxT),
         min maxT ((c.encode text).length - j * (maxT - ov)), j⟩) := by
  unfold splitByTokens
  rw [splitTokAux_char c maxT (maxT - ov) (by omega) (c.encode text).length (c.encode text) 0
    (Nat.le_refl _)]
  simp

/-- C6 witness: the window characterization at budget 4, overlap 2, on a
five-token input. -/
theorem c6_window_structure_witness : (2 : Nat) < 4 ∧
    splitByTokens charCodec 4 2 "abcde" =
      (List.range (((charCodec.encode "abcde").length + (4 - 2) - 1) / (4 - 2))).map (fun j =>
        ⟨charCodec.decode (((charCodec.encode "abcde").drop (j * (4 - 2))).take 4),
         min 4 ((charCodec.encode "abcde").length - j * (4 - 2)), j⟩) :=
  ⟨by decide, c6_window_structure_amended charCodec 4 2 "abcde" (by decide)⟩

/-- C7 counterexample: with budget 4 and overlap 2, sections `"x y"` and
`"zz"` produce chunks `"x y"` and `"y\n\nzz"`.  The overlap text decoded
from the trailing 2 tokens of the buffer is `" y"`, but the seeded buffer
is stripped before emission, so the leading 2 tokens of the second chunk
are `"y\n"` while the trailing 2 tokens of the first chunk are `" y"`: the
emitted adjacent chunks do not share the overlap token run. -/
theorem c7_overlap_context_counterexample :
    chunkText charCodec 4 2 "x y\n\nzz" = [⟨"x y", 3, 0⟩, ⟨"y\n\nzz", 6, 1⟩] ∧
    (charCodec.encode "y\n\nzz").take 2 ≠
      (charCodec.encode "x y").drop ((charCodec.encode "x y").length - 2) :=
  ⟨by decide, by decide⟩

/-- C7 amended: at every budget-triggered flush the step emits the closed
buffer (stripped, with its running count and the next dense id) and seeds
the new accumulator with `overlap_text ++ "\n\n" ++ section`, whose leading
`min(overlap, |buffer|)` tokens are exactly the trailing tokens of the
flushed buffer.  The overlap context is therefore shared at the buffer
level; it survives to the emitted chunk pair only up to the final
`strip()`, which the counterexample shows can remove leading whitespace of
the overlap text. -/
theorem c7_overlap_context_amended (maxT ov : Nat) (st : AsmState) (s : String)
    (hbuf : st.buf ≠ "")
    (hsec : ¬ countC charCodec s > maxT)
    (hflush : st.bt + countC charCodec s > maxT) :
    (assembleStep charCodec maxT ov st s).chunks =
      st.chunks ++ [⟨pyStrip st.buf, st.bt, st.chunks.length⟩] ∧
    (assembleStep charCodec maxT ov st s).buf =
      getOverlapText charCodec st.buf ov ++ "\n\n" ++ s ∧
    (charCodec.encode (assembleStep charCodec maxT ov st s).buf).take
        (min ov (charCodec.encode st.buf).length) =
      (charCodec.encode st.buf).drop
        ((charCodec.encode st.buf).length - min ov (charCodec.encode st.buf).length) := by
  have hstep : assembleStep charCodec maxT ov st s =
      ⟨(flushIf st).chunks, getOverlapText charCodec st.buf ov ++ "\n\n" ++ s,
        countC charCodec (getOverlapText charCodec st.buf ov ++ "\n\n" ++ s)⟩ := by
    unfold assembleStep
    rw [if_neg hsec, if_pos hflush]
  have hfl : (flushIf st).chunks = st.chunks ++ [⟨pyStrip st.buf, st.bt, st.chunks.length⟩] := by
    unfold flushIf
    rw [if_pos hbuf]
  rw [hstep]
  refine ⟨hfl, rfl, ?_⟩
  simp only [charCodec_encode]
  by_cases h0 : ov = 0
  · subst h0
    simp only [Nat.zero_min, List.take_zero, Nat.sub_zero, List.drop_length]
  · have hcond : ¬ (st.buf = "" ∨ ov = 0) := by
      intro hc; rcases hc with hc | hc
      · exact hbuf hc
      · exact h0 hc
    by_cases hlen : (charCodec.encode st.buf).length ≤ ov
    · have hov : getOverlapText charCodec st.buf ov = st.buf := by
        simp only [getOverlapText]
        rw [if_neg hcond, if_pos hlen]
      rw [hov]
      have hmin : min ov st.buf.data.length = st.buf.data.length :=
        Nat.min_eq_right (by simpa [charCodec_encode] using hlen)
      rw [hmin, Nat.sub_self, List.drop_zero, String.data_append, String.data_append,
        List.append_assoc, List.take_left]
    · have hov : getOverlapText charCodec st.buf ov =
          charCodec.decode ((charCodec.encode st.buf).drop
            ((charCodec.encode st.buf).length - ov)) := by
        simp only [getOverlapText]
        rw [if_neg hcond, if_neg hlen]
      rw [hov]
      simp only [charCodec_encode] at hlen ⊢
      have hmin : min ov st.buf.data.length = ov := Nat.min_eq_left (by omega)
      have hw : ((st.buf.data.drop (st.buf.data.length - ov))).length = ov := by
        rw [List.length_drop]; omega
      rw [hmin, String.data_append, String.data_append, charCodec_data_decode,
        List.append_assoc]
      exact List.take_left' hw

/-- C7 witness: the amended statement at the concrete flush state of the
counterexample input. -/
theorem c7_overlap_context_witness :
    ((⟨[], "x y", 3⟩ : AsmState).buf ≠ "" ∧
     ¬ countC charCodec "zz" > 4 ∧
     (⟨[], "x y", 3⟩ : AsmState).bt + countC charCodec "zz" > 4) ∧
    ((assembleStep charCodec 4 2 ⟨[], "x y", 3⟩ "zz").chunks =
       (⟨[], "x y", 3⟩ : AsmState).chunks ++
         [⟨pyStrip (⟨[], "x y", 3⟩ : AsmState).buf, (⟨[], "x y", 3⟩ : AsmState).bt,
           (⟨[], "x y", 3⟩ : AsmState).chunks.length⟩] ∧
     (assembleStep charCodec 4 2 ⟨[], "x y", 3⟩ "zz").buf =
       getOverlapText charCodec (⟨[], "x y", 3⟩ : AsmState).buf 2 ++ "\n\n" ++ "zz" ∧
     (charCodec.encode (assembleStep charCodec 4 2 ⟨[], "x y", 3⟩ "zz").buf).take
         (min 2 (charCodec.encode (⟨[], "x y", 3⟩ : AsmState).buf).length) =
       (charCodec.encode (⟨[], "x y", 3⟩ : AsmState).buf).drop
         ((charCodec.encode (⟨[], "x y", 3⟩ : AsmState).buf).length -
           min 2 (charCodec.encode (⟨[], "x y", 3⟩ : AsmState).buf).length)) :=
  ⟨⟨by decide, by decide, by decide⟩,
    c7_overlap_context_amended 4 2 ⟨[], "x y", 3⟩ "zz" (by decide) (by decide) (by decide)⟩

/-- C8: `_get_overlap_text(text, k)` returns the decoding of the trailing
`k` tokens when the text has more than `k` tokens, returns the whole text
unchanged when it has fewer than `k`, and its result never has more than
`k` tokens under the codec. -/
theorem c8_getOverlapText_correct (text : String) (k : Nat) :
    (k < countC charCodec text →
      getOverlapText charCodec text k =
        charCodec.decode ((charCodec.encode text).drop ((charCodec.encode text).length - k))) ∧
    (countC charCodec text < k → getOverlapText charCodec text k = text) ∧
    countC charCodec (getOverlapText charCodec text k) ≤ k := by
  have h00 : (charCodec.encode "").length = 0 := rfl
  have henc : ∀ w : List Char, charCodec.encode (charCodec.decode w) = w := fun w => rfl
  refine ⟨?_, ?_, ?_⟩ <;> simp only [getOverlapText, countC] <;> split_ifs with h1 h2
  · intro hk
    rcases h1 with h1 | h1
    · subst h1; rw [h00] at hk; omega
    · subst h1; rw [Nat.sub_zero, List.drop_length]; decide
  · intro hk; omega
  · intro _; rfl
  · intro hk
    rcases h1 with h1 | h1
    · subst h1; rfl
    · subst h1; omega
  · intro _; rfl
  · intro hk; omega
  · rw [h00]; omega
  · exact h2
  · rw [henc, List.length_drop]; omega

/-- C8 witness: trailing-token extraction and bound at a concrete input
with more tokens than the requested overlap. -/
theorem c8_getOverlapText_correct_witness : (2 : Nat) < countC charCodec "abcde" ∧
    getOverlapText charCodec "abcde" 2 =
      charCodec.decode ((charCodec.encode "abcde").drop
        ((charCodec.encode "abcde").length - 2)) ∧
    countC charCodec (getOverlapText charCodec "abcde" 2) ≤ 2 :=
  ⟨by decide, (c8_getOverlapText_correct "abcde" 2).1 (by decide),
    (c8_getOverlapText_correct "abcde" 2).2.2⟩

/-- C9: empty input is not an error: `chunk_text("")` is the empty chunk
sequence for every codec and configuration, and `get_statistics([])` is the
zero-valued record, with no division performed. -/
theorem c9_empty_input_ok {τ : Type} (c : Codec τ) (maxT ov : Nat) :
    chunkText c maxT ov "" = [] ∧ getStatistics [] = ⟨0, 0, 0, 0, 0⟩ :=
  ⟨rfl, rfl⟩

/-- C10 counterexample: with budget 4, overlap 3 and a 4-token input
(`L - maxTokens = 0` is a non-negative multiple of the step), the loop does
not emit one additional final window of exactly `overlapTokens = 3` tokens:
it emits three additional windows of sizes 3, 2, 1. -/
theorem c10_final_window_counterexample :
    (splitByTokens charCodec 4 3 "abcd").map Chunk.tokens = [4, 3, 2, 1] ∧
    (splitByTokens charCodec 4 3 "abcd").length ≠ 2 := by
  constructor <;> rw [splitByTokens_eval2] <;> decide

/-- C10 amended: when additionally `2 * overlap ≤ max_tokens`, an `L`-token
input with `L = maxTokens + m * step` produces exactly `m + 2` windows; the
final window consists of exactly `overlapTokens` tokens — the input's
trailing overlap run — and its token slice is entirely contained in the
previous window (it is that window's trailing part).  When
`overlap > maxTokens / 2` several shrinking extra windows appear instead,
as the counterexample shows. -/
theorem c10_final_window_amended {τ : Type} (c : Codec τ) (maxT ov m : Nat) (text : String)
    (h1 : 0 < ov) (h2 : 2 * ov ≤ maxT)
    (hL : (c.encode text).length = maxT + m * (maxT - ov)) :
    (splitByTokens c maxT ov text).length = m + 2 ∧
    (splitByTokens c maxT ov text).getLast? =
      some ⟨c.decode ((c.encode text).drop ((c.encode text).length - ov)), ov, m + 1⟩ ∧
    (c.encode text).drop ((c.encode text).length - ov) =
      (((c.encode text).drop (m * (maxT - ov))).take maxT).drop (maxT - ov) := by
  have hov : ov < maxT := by omega
  rw [splitByTokens_char c maxT ov text hov]
  have hmul : (maxT - ov) * (m + 2) = m * (maxT - ov) + (maxT - ov) * 2 := by ring
  have hcount : ((c.encode text).length + (maxT - ov) - 1) / (maxT - ov) = m + 2 := by
    rw [show (c.encode text).length + (maxT - ov) - 1
        = (maxT - ov) * (m + 2) + (ov - 1) by omega,
      Nat.mul_add_div (by omega), Nat.div_eq_of_lt (by omega)]
  have hstart : (m + 1) * (maxT - ov) = (c.encode text).length - ov := by
    have : (m + 1) * (maxT - ov) = m * (maxT - ov) + (maxT - ov) := by ring
    omega
  have hlen1 : ((c.encode text).drop ((c.encode text).length - ov)).length = ov := by
    rw [List.length_drop]; omega
  refine ⟨by rw [List.length_map, List.length_range, hcount], ?_, ?_⟩
  · rw [List.getLast?_eq_getElem?]
    simp only [List.length_map, List.length_range, hcount]
    rw [List.getElem?_map, show m + 2 - 1 = m + 1 by omega,
      List.getElem?_range (by omega)]
    have e4 : ((c.encode text).drop ((c.encode text).length - ov)).take maxT
        = (c.encode text).drop ((c.encode text).length - ov) :=
      List.take_of_length_le (by rw [hlen1]; omega)
    simp only [Option.map_some']
    rw [hstart, e4]
    have e5 : min maxT ((c.encode text).length - ((c.encode text).length - ov)) = ov := by
      omega
    rw [e5]
  · have e1 : m * (maxT - ov) + (maxT - ov) = (m + 1) * (maxT - ov) := by ring
    have e2 : maxT - (maxT - ov) = ov := by omega
    have e3 : ((c.encode text).drop ((c.encode text).length - ov)).take ov
        = (c.encode text).drop ((c.encode text).length - ov) :=
      List.take_of_length_le (by rw [hlen1])
    rw [List.drop_take, List.drop_drop, e1, hstart, e2, e3]

/-- C10 witness: budget 4, overlap 2, a 4-token input (`m = 0`): two
windows, the last being the trailing 2 tokens, contained in the first. -/
theorem c10_final_window_witness :
    ((0 : Nat) < 2 ∧ 2 * 2 ≤ 4 ∧ (charCodec.encode "abcd").length = 4 + 0 * (4 - 2)) ∧
    ((splitByTokens charCodec 4 2 "abcd").length = 0 + 2 ∧
     (splitByTokens charCodec 4 2 "abcd").getLast? =
       some ⟨charCodec.decode ((charCodec.encode "abcd").drop
         ((charCodec.encode "abcd").length - 2)), 2, 0 + 1⟩ ∧
     (charCodec.encode "abcd").drop ((charCodec.encode "abcd").length - 2) =
       (((charCodec.encode "abcd").drop (0 * (4 - 2))).take 4).drop (4 - 2)) :=
  ⟨⟨by decide, by decide, by decide⟩,
    c10_final_window_amended charCodec 4 2 0 "abcd" (by decide) (by decide) (by decide)⟩
